import Mathlib

/-!
Shallow embedding of `dspy/primitives/assertions.py`: the constraint
primitives (`Assert` / `Suggest`), the constraint registry, the signature
extension and reversion helpers, and the backtracking handler
`suggest_backtrack_handler`, together with theorems checking the
specification's claims against these definitions.
-/

namespace DspyAssertions

/-- An entry of `dsp.settings.trace`: `(module, input, output)`. `mod` is the
module's identity (a heap id), `ip` the input snapshot, and `op` the
prediction's `_store` dict, modelled as an ordered association list. -/
structure TraceEntry where
  mod : Nat
  ip : String
  op : List (String × String)
deriving DecidableEq, Repr

/-- Python `dict.get`: the first binding of `k`, if any. -/
def alook {κ β : Type} [DecidableEq κ] : List (κ × β) → κ → Option β
  | [], _ => none
  | kv :: rest, k => if kv.1 = k then some kv.2 else alook rest k

/-- Python `dict.__setitem__`: replace in place when the key is present (a
dict keeps the key's original position), append otherwise. -/
def dictInsert {κ β : Type} [DecidableEq κ] (d : List (κ × β)) (k : κ) (v : β) :
    List (κ × β) :=
  if d.any (fun kv => kv.1 = k) then
    d.map (fun kv => if kv.1 = k then (k, v) else kv)
  else d ++ [(k, v)]

/-- The Python object heap restricted to the list objects that hold trace
entries. `dsp.settings.trace` is one such object; an exception's `state`
attribute stores a *reference* to it (`state=dsp.settings.trace`), not a
copy, per Python assignment semantics. -/
abbrev Heap := Nat → List TraceEntry

/-- Mutation `trace.append(e)` of the list object at reference `r`. -/
def heapAppend (h : Heap) (r : Nat) (e : TraceEntry) : Heap :=
  fun j => if j = r then h j ++ [e] else h j

/-- `DSPyAssertionError` / `DSPySuggestionError` (lines 93-110): `id`, `msg`
and the `state` attribute, which is the reference stored by
`state=dsp.settings.trace`. -/
structure ViolationError where
  id : String
  msg : String
  state : Nat
deriving DecidableEq, Repr

/-- The trace list that an error's `state` attribute denotes under heap `h`. -/
def errState (h : Heap) (e : ViolationError) : List TraceEntry :=
  h e.state

/-- `Assert.__call__` (lines 137-150), restricted to a boolean `result` (the
non-boolean `ValueError` branch is outside every claim): a true result
passes; a false result with `bypass_assert` set logs and passes; otherwise
it raises `DSPyAssertionError(id, msg, state=dsp.settings.trace)`, the trace
being passed as the reference `traceRef`. -/
def assertCall (bypassAssert : Bool) (cid : String) (result : Bool) (msg : String)
    (traceRef : Nat) : Except ViolationError Bool :=
  if result then .ok true
  else if bypassAssert then .ok true
  else .error ⟨cid, msg, traceRef⟩

/-- `Suggest.__call__` (lines 156-169): same shape with `bypass_suggest` and
`DSPySuggestionError`. -/
def suggestCall (bypassSuggest : Bool) (cid : String) (result : Bool) (msg : String)
    (traceRef : Nat) : Except ViolationError Bool :=
  if result then .ok true
  else if bypassSuggest then .ok true
  else .error ⟨cid, msg, traceRef⟩

/-- A Python `Constraint` instance's attribute dictionary: `none` means the
attribute was never assigned (so accessing it raises `AttributeError`). -/
structure ConstraintObj where
  id : Option String
  result : Option Bool
  msg : Option String
  targetModule : Option (Option String)
deriving DecidableEq, Repr

/-- The key `(result, msg, target_module)` used by `Constraint._registry`. -/
abbrev CKey := Bool × String × Option String

/-- The class-level state behind `Constraint`: `_registry` plus a counter
providing the successive distinct values of `str(uuid.uuid4())`. -/
structure Registry where
  entries : List (CKey × ConstraintObj)
  fresh : Nat
deriving Repr

/-- Successive distinct uuid strings (uuid4 collisions are not modelled). -/
def uuid4 (n : Nat) : String := "uuid-" ++ toString n

/-- `Constraint.__init__` (lines 120-131). Returns
`(returned, calledOn, registry)`. `returned` is the object the constructor
expression `Constraint(...)` evaluates to: always the freshly allocated
object, because the statement `self = Constraint._registry[key]` only
rebinds the local name `self` and never touches the fresh object, whose
attributes therefore stay unset in the dedup branch. `calledOn` is the
object `self.__call__()` is invoked on at line 131 (the registered object in
the dedup branch, the fresh one otherwise). -/
def constraintInit (reg : Registry) (result : Bool) (msg : String)
    (target : Option String) : ConstraintObj × ConstraintObj × Registry :=
  let key : CKey := (result, msg, target)
  match alook reg.entries key with
  | some existing => (⟨none, none, none, none⟩, existing, reg)
  | none =>
      let obj : ConstraintObj :=
        ⟨some (uuid4 reg.fresh), some result, some msg, some target⟩
      (obj, obj, ⟨dictInsert reg.entries key obj, reg.fresh + 1⟩)

/-- The membership-guarded append of lines 314-317, at the level of a single
step's message list. -/
def recordFeedback (msgs : List String) (msg : String) : List String :=
  if msg ∈ msgs then msgs else msgs ++ [msg]

/-- `_build_error_msg` (lines 33-35). -/
def buildErrorMsg (feedbackMsgs : List String) : String :=
  String.intercalate "\n" feedbackMsgs

/-- Specification-side description of first-occurrence deduplication: keep
the first occurrence of every string, in order, skipping anything in
`seen`. -/
def firstDedupAux (seen : List String) : List String → List String
  | [] => []
  | x :: xs =>
      if x ∈ seen then firstDedupAux seen xs
      else x :: firstDedupAux (x :: seen) xs

/-- Specification-side first-occurrence deduplication of a message list. -/
def firstDedup (l : List String) : List String :=
  firstDedupAux [] l

/-- Lines 313-317: `predictor_feedbacks.setdefault(backtrack_to, [])`
followed by the membership-guarded `append`. The key `none` models
`backtrack_to = None`. -/
def recordFeedbackAt (fb : List (Option Nat × List String)) (bt : Option Nat)
    (msg : String) : List (Option Nat × List String) :=
  match alook fb bt with
  | some cur => if msg ∈ cur then fb else dictInsert fb bt (cur ++ [msg])
  | none => fb ++ [(bt, [msg])]

/-- The `(ip, op, msg)` triple stored per `(predictor, suggestion id)` at
lines 319-329; `op` already has the two injected fields popped. -/
abbrev FailInfo := String × List (String × String) × String

/-- Lines 325-329: `failure_traces.setdefault(backtrack_to, {})[suggest_id] = ...`. -/
def insertFailTrace (ft : List (Option Nat × List (String × FailInfo)))
    (bt : Option Nat) (sid : String) (info : FailInfo) :
    List (Option Nat × List (String × FailInfo)) :=
  match alook ft bt with
  | some d => dictInsert ft bt (dictInsert d sid info)
  | none => ft ++ [(bt, [(sid, info)])]

/-- A `dsp.Template`: instructions plus an ordered field dictionary (field
name → descriptor); descriptors are kept opaque as strings. -/
structure Template where
  instructions : String
  kwargs : List (String × String)
deriving DecidableEq, Repr

/-- Python `list.index` (the raising `ValueError` case maps to `none`). -/
def pyIndex (x : String) : List String → Option Nat
  | [] => none
  | y :: l => if y = x then some 0 else (pyIndex x l).map (fun n => n + 1)

/-- Python `list.insert(n, x)`: an out-of-range index is clamped to the end. -/
def pyInsert : Nat → String → List String → List String
  | _, x, [] => [x]
  | 0, x, y :: l => x :: y :: l
  | m + 1, x, y :: l => y :: pyInsert m x l

/-- The dict comprehension of lines 58-60: iterate `keys` in order, keeping
the first position of every key, the value supplied by `value`. -/
def dictComp (keys : List String) (value : String → String) :
    List (String × String) :=
  keys.foldl
    (fun acc k =>
      if acc.any (fun kv => kv.1 = k) then acc else acc ++ [(k, value k)])
    []

/-- The descriptor of the `feedback_field` built at lines 259-263. -/
def feedbackFieldDesc : String :=
  "InputField(Instruction:, Some instructions you must satisfy, str)"

/-- The descriptor of the `traces_field` built at lines 252-256. -/
def tracesFieldDesc : String :=
  "InputField(Counter Examples:, Traces of some incorrect outputs that violate instructions, passages2text)"

/-- Lines 55-56: insert the reversed new field names, each at the fixed
position right after `question`. -/
def extendKeys (names : List String) (position : Nat) (oldKeys : List String) :
    List String :=
  names.reverse.foldl (fun ks k => pyInsert position k ks) oldKeys

/-- Line 59: `kwargs.get(key, old_signature.kwargs.get(key))`; the fallback
value of a key found in neither dict (unused: every key comes from one of
the two) is `""`. -/
def extendValue (nf : List (String × String)) (old : List (String × String))
    (k : String) : String :=
  match alook nf k with
  | some v => v
  | none => (alook old k).getD ""

/-- `_extend_predictor_signature` (lines 48-63) on the signature value:
`none` models the `ValueError` raised by `old_keys.index("question")` when
no `question` field exists; otherwise the new field names are inserted right
after `question` and the field dictionary is rebuilt by the comprehension. -/
def extendSig (t : Template) (nf : List (String × String)) : Option Template :=
  match pyIndex "question" (t.kwargs.map (fun kv => kv.1)) with
  | none => none
  | some idx =>
      some ⟨t.instructions,
        dictComp
          (extendKeys (nf.map (fun kv => kv.1)) (idx + 1)
            (t.kwargs.map (fun kv => kv.1)))
          (extendValue nf t.kwargs)⟩

/-- `_revert_predictor_signature` (lines 66-74): pop the given keys and
rebuild the template from the remaining fields. -/
def revertSig (t : Template) (ks : List String) : Template :=
  ⟨t.instructions, t.kwargs.filter (fun kv => !(ks.contains kv.1))⟩

/-- A default-argument value bound by `_wrap_forward_with_set_fields`:
the feedback message is a string, the trace passages a list of strings. -/
inductive FwdVal where
  | s (x : String)
  | ls (xs : List String)
deriving DecidableEq, Repr

/-- A predictor's `forward` attribute: either the original bound method of
predictor `p`, or a `new_forward` wrapper from
`_wrap_forward_with_set_fields` (lines 77-87) capturing the default
arguments and the function it wraps. -/
inductive Fwd where
  | orig (p : Nat)
  | wrapped (defaults : List (String × FwdVal)) (inner : Fwd)
deriving DecidableEq, Repr

/-- The mutable attributes of a predictor: its `signature` identity (the
attribute compared by `mod.signature == target_module` at line 304, never
mutated here), its `extended_signature`, and its `forward`. -/
structure PredState where
  signature : String
  ext : Template
  fwd : Fwd
deriving DecidableEq, Repr

/-- The predictor heap: predictor id → current attributes. -/
abbrev Preds := Nat → PredState

/-- Attribute assignment on predictor `p`. -/
def updatePred (ps : Preds) (p : Nat) (v : PredState) : Preds :=
  fun j => if j = p then v else ps j

/-- The two `dspy.settings` flags read by the primitives and set by the
handlers. -/
structure Flags where
  bypassSuggest : Bool
  bypassAssert : Bool
deriving DecidableEq, Repr

/-- The observable outcome of one pipeline invocation `func(*args, **kwargs)`
inside the handler loop: a normal return, a `DSPySuggestionError` (whose
`state` and `dsp.settings.trace` are the same list at the catch site, so a
single trace value models both), or a `DSPyAssertionError`. -/
inductive RunOutcome (α : Type) where
  | ok (a : α)
  | suggestErr (id : String) (msg : String) (trace : List TraceEntry)
  | assertErr (id : String) (msg : String)

/-- An exception propagating out of the handler's `wrapper`: an uncaught
suggestion or assertion error, the `ValueError` from
`old_keys.index("question")`, or the `IndexError` from `e.state[-1]` on an
empty trace. -/
inductive HErr where
  | suggestE (id : String) (msg : String)
  | assertE (id : String) (msg : String)
  | valueError
  | indexError
deriving DecidableEq, Repr

/-- The local state of `wrapper` (lines 236-247) between loop iterations,
plus the predictor heap and the count of pipeline invocations so far. -/
structure LoopSt where
  preds : Preds
  backtrackTo : Option Nat
  saved : List (Nat × Fwd)
  feedbacks : List (Option Nat × List String)
  failTraces : List (Option Nat × List (String × FailInfo))
  calls : Nat

/-- What a handler run produces: the returned value (or propagated
exception), the final predictor heap, and the number of pipeline
invocations. -/
structure HandlerOut (α : Type) where
  result : Except HErr (Option α)
  preds : Preds
  calls : Nat

/-- The descending index scan of lines 301-306, applied to the reversed
trace: the first entry (from the end) whose module's `signature` equals the
target. -/
def scanBack (ps : Preds) (t : String) : List TraceEntry → Option Nat
  | [] => none
  | e :: rest =>
      if (ps e.mod).signature = t then some e.mod else scanBack ps t rest

/-- Lines 299-308: with a configured `target_module`, scan the trace
backward (`backtrack_to` keeps its previous value when nothing matches);
otherwise take the last trace entry's module. -/
def resolveBacktrack (ps : Preds) (b0 : Option Nat) (target : Option String)
    (tr : List TraceEntry) : Option Nat :=
  match target with
  | some t =>
      match scanBack ps t tr.reverse with
      | some p => some p
      | none => b0
  | none => tr.getLast?.map (fun e => e.mod)

/-- Rendering of the output `_store` dict inside a trace passage (the exact
text of Python's `str(dict)` is not relied on by any claim). -/
def renderStore (op : List (String × String)) : String :=
  String.intercalate ", " (op.map (fun kv => kv.1 ++ "=" ++ kv.2))

/-- `_build_trace_passages` (lines 38-45). -/
def buildTracePassages (ft : List (String × FailInfo)) : List String :=
  ft.map (fun kv =>
    "Failed Instruction: " ++ kv.2.2.2 ++ " | Output: " ++ renderStore kv.2.2.1)

/-- Lines 250-285: on `i > 0` with a resolved `backtrack_to`, save the
predictor's current `forward` into `predictors_to_original_forward`, extend
its signature (a missing `question` field raises `ValueError`, modelled as
`HErr.valueError`, before any mutation of the predictor), and wrap `forward`
with the rendered feedback / trace-passage defaults. -/
def augPhase (i : Nat) (st : LoopSt) : Except HErr LoopSt :=
  if 0 < i then
    match st.backtrackTo with
    | some p =>
        let ps := st.preds p
        let saved := dictInsert st.saved p ps.fwd
        match extendSig ps.ext
            [("_assert_feedback", feedbackFieldDesc),
             ("_assert_traces", tracesFieldDesc)] with
        | none => .error .valueError
        | some ext2 =>
            let fbMsg := buildErrorMsg ((alook st.feedbacks (some p)).getD [])
            let passages :=
              buildTracePassages ((alook st.failTraces (some p)).getD [])
            let fwd2 :=
              Fwd.wrapped
                [("_assert_feedback", .s fbMsg), ("_assert_traces", .ls passages)]
                ps.fwd
            .ok { st with
                  saved := saved,
                  preds := updatePred st.preds p ⟨ps.signature, ext2, fwd2⟩ }
    | none => .ok st
  else .ok st

/-- Lines 336-341, reached only when the loop ends by `break`: for every
predictor in `predictors_to_original_forward` (insertion order), pop the
field literally named `"feedback"` (sic) from its signature and restore the
saved `forward`. -/
def finish {α : Type} (st : LoopSt) (res : Option α) : HandlerOut α :=
  let ps :=
    st.saved.foldl
      (fun acc pf =>
        let cur := acc pf.1
        updatePred acc pf.1 ⟨cur.signature, revertSig cur.ext ["feedback"], pf.2⟩)
      st.preds
  ⟨.ok res, ps, st.calls⟩

/-- The `for i in range(max_backtracks + 1)` loop of lines 249-334, over the
list of remaining indices. The pipeline is given as a script from the
invocation count and the ambient flags to that invocation's outcome; the
final iteration (`i == max_backtracks`) calls it under
`bypass_suggest_handler`'s flags `(bypass_suggest=True, bypass_assert=False)`
(lines 188-199, 287-290). An exception propagates immediately: the revert
block is NOT in a `try/finally`, so it only runs on the `break` paths. -/
def handlerGo {α : Type} (pipeline : Nat → Flags → RunOutcome α) (flags0 : Flags)
    (target : Option String) (maxB : Nat) : List Nat → LoopSt → HandlerOut α
  | [], st => finish st none
  | i :: rest, st =>
    match augPhase i st with
    | .error e => ⟨.error e, st.preds, st.calls⟩
    | .ok st1 =>
      if i = maxB then
        match pipeline st1.calls ⟨true, false⟩ with
        | .ok a => finish { st1 with calls := st1.calls + 1 } (some a)
        | .suggestErr sid m _ => ⟨.error (.suggestE sid m), st1.preds, st1.calls + 1⟩
        | .assertErr aid m => ⟨.error (.assertE aid m), st1.preds, st1.calls + 1⟩
      else
        match pipeline st1.calls flags0 with
        | .ok a => finish { st1 with calls := st1.calls + 1 } (some a)
        | .assertErr aid m => ⟨.error (.assertE aid m), st1.preds, st1.calls + 1⟩
        | .suggestErr sid m tr =>
          let st2 := { st1 with calls := st1.calls + 1 }
          match tr.getLast? with
          | none => ⟨.error .indexError, st2.preds, st2.calls⟩
          | some lastE =>
            let bt := resolveBacktrack st2.preds st2.backtrackTo target tr
            let fb2 := recordFeedbackAt st2.feedbacks bt m
            let op2 :=
              lastE.op.filter
                (fun kv =>
                  !(kv.1 == "_assert_feedback" || kv.1 == "_assert_traces"))
            let ft2 := insertFailTrace st2.failTraces bt sid (lastE.ip, op2, m)
            handlerGo pipeline flags0 target maxB rest
              { st2 with backtrackTo := bt, feedbacks := fb2, failTraces := ft2 }

/-- `suggest_backtrack_handler(func, max_backtracks, **handler_args)`'s
`wrapper` (lines 236-342), as a function of the per-invocation outcome
script, the ambient flags, the configured `target_module` and the initial
predictor heap. -/
def runHandler {α : Type} (pipeline : Nat → Flags → RunOutcome α) (flags0 : Flags)
    (target : Option String) (maxB : Nat) (preds0 : Preds) : HandlerOut α :=
  handlerGo pipeline flags0 target maxB (List.range (maxB + 1))
    ⟨preds0, none, [], [], [], 0⟩

/-- A template has a field named `question`. -/
abbrev hasQuestion (t : Template) : Prop :=
  "question" ∈ t.kwargs.map (fun kv => kv.1)

/-- How the final (`i == max_backtracks`) iteration's pipeline outcome maps
to the handler's result: a normal return is returned, an uncaught error
propagates. -/
def finalResult {α : Type} (out : RunOutcome α) : Except HErr (Option α) :=
  match out with
  | .ok a => .ok (some a)
  | .suggestErr sid m _ => .error (.suggestE sid m)
  | .assertErr aid m => .error (.assertE aid m)

instance exceptDecEq {ε α : Type} [DecidableEq ε] [DecidableEq α] :
    DecidableEq (Except ε α)
  | .ok x, .ok y =>
    if h : x = y then .isTrue (by rw [h])
    else .isFalse (fun hh => h (Except.ok.inj hh))
  | .ok _, .error _ => .isFalse (fun hh => Except.noConfusion hh)
  | .error _, .ok _ => .isFalse (fun hh => Except.noConfusion hh)
  | .error e, .error f =>
    if h : e = f then .isTrue (by rw [h])
    else .isFalse (fun hh => h (Except.error.inj hh))

/-- Concrete inputs for the cleanup-invariant claim: a predictor whose
original signature is `[question, answer]`. -/
def c1Ext0 : Template := ⟨"inst", [("question", "qdesc"), ("answer", "adesc")]⟩

def c1Preds : Preds := fun _ => ⟨"sigA", c1Ext0, .orig 0⟩

def c1Trace : List TraceEntry := [⟨0, "ip0", [("answer", "out0")]⟩]

/-- A pipeline whose soft constraint fails on the first attempt and that
succeeds on the (augmented) second attempt. -/
def c1PipeOk : Nat → Flags → RunOutcome String := fun k _ =>
  if k = 0 then .suggestErr "sid0" "msg0" c1Trace else .ok "done"

def c1Out : HandlerOut String := runHandler c1PipeOk ⟨false, false⟩ none 1 c1Preds

/-- A pipeline whose soft constraint fails on the first attempt and that
raises a hard `DSPyAssertionError` on the (augmented) second attempt. -/
def c1PipeRaise : Nat → Flags → RunOutcome String := fun k _ =>
  if k = 0 then .suggestErr "sid0" "msg0" c1Trace else .assertErr "aid0" "hardfail"

def c1Out2 : HandlerOut String :=
  runHandler c1PipeRaise ⟨false, false⟩ none 1 c1Preds

/-- A fresh `Constraint._registry` with the uuid counter at 0. -/
def reg0 : Registry := ⟨[], 0⟩

/-- Concrete inputs for the unresolved-target claim: the only predictor's
`signature` is `"sigA"`, while the configured target is `"sigT"`. -/
def c5Preds : Preds := fun _ => ⟨"sigA", ⟨"inst", [("question", "qdesc")]⟩, .orig 0⟩

def c5Pipe : Nat → Flags → RunOutcome String := fun k _ =>
  if k = 0 then .suggestErr "s" "m" [⟨0, "ip", []⟩] else .ok "v"

def c5Out : HandlerOut String :=
  runHandler c5Pipe ⟨false, false⟩ (some "sigT") 1 c5Preds

/-- Concrete inputs for the question-anchor claim: a predictor whose
signature has no `question` field. -/
def c9Preds : Preds := fun _ => ⟨"sigA", ⟨"inst", [("context", "cdesc")]⟩, .orig 0⟩

def c9Pipe : Nat → Flags → RunOutcome String := fun _ _ =>
  .suggestErr "s" "m" [⟨0, "ip", []⟩]

def c9Out : HandlerOut String := runHandler c9Pipe ⟨false, false⟩ none 2 c9Preds

/-- Concrete inputs for the trace-snapshot claim: a one-entry trace list at
heap cell 0. -/
def c4H0 : Heap := fun _ => [⟨0, "ip", []⟩]

def c4E2 : TraceEntry := ⟨1, "ip2", []⟩

/-- Concrete inputs for the target-resolution example: predictor 0 has
signature `sigA`, predictor 1 signature `sigB`. -/
def c6ExPreds : Preds := fun n =>
  if n = 1 then ⟨"sigB", ⟨"inst", [("question", "qdesc")]⟩, .orig 1⟩
  else ⟨"sigA", ⟨"inst", [("question", "qdesc")]⟩, .orig 0⟩

/-- The trace `[stepA, stepB, stepA]` of the claim's example. -/
def c6ExTrace : List TraceEntry :=
  [⟨0, "ipA", []⟩, ⟨1, "ipB", []⟩, ⟨0, "ipA2", []⟩]

/-- A pipeline for the bounded-retry witness: always fails its soft
constraint unless the soft-bypass flag is on. -/
def c3Pipe : Nat → Flags → RunOutcome String := fun _ fl =>
  if fl.bypassSuggest then .ok "final"
  else .suggestErr "s0" "bad" [⟨0, "ip", [("answer", "a")]⟩]

def c3Preds : Preds := fun _ => ⟨"sig0", ⟨"inst", [("question", "qdesc")]⟩, .orig 0⟩

/-- A pipeline for the forced-attempt flags witness: the first attempt fails
its soft constraint; from the second invocation on it evaluates a hard
constraint with a false result, so it only completes if `bypass_assert` is
set during that call. -/
def c10Pipe : Nat → Flags → RunOutcome String := fun k fl =>
  match k with
  | 0 =>
      if fl.bypassSuggest then .ok "x"
      else .suggestErr "s" "m" [⟨0, "ip", []⟩]
  | _ + 1 => if fl.bypassAssert then .ok "x" else .assertErr "aid" "hard"

def c10Preds : Preds := fun _ => ⟨"sig0", ⟨"inst", [("question", "qdesc")]⟩, .orig 0⟩


lemma alook_append_none {κ β : Type} [DecidableEq κ] {l1 : List (κ × β)}
    (l2 : List (κ × β)) {k : κ} (h : alook l1 k = none) :
    alook (l1 ++ l2) k = alook l2 k := by
  induction l1 with
  | nil => rfl
  | cons kv rest ih =>
      rw [alook] at h
      by_cases hk : kv.1 = k
      · simp [hk] at h
      · rw [if_neg hk] at h
        simpa [alook, hk] using ih h

lemma alook_append_some {κ β : Type} [DecidableEq κ] {l1 : List (κ × β)}
    (l2 : List (κ × β)) {k : κ} {v : β} (h : alook l1 k = some v) :
    alook (l1 ++ l2) k = some v := by
  induction l1 with
  | nil => simp [alook] at h
  | cons kv rest ih =>
      rw [alook] at h
      by_cases hk : kv.1 = k
      · rw [if_pos hk] at h
        simp [alook, hk, h]
      · rw [if_neg hk] at h
        simpa [alook, hk] using ih h

lemma alook_eq_none_of_any_false {κ β : Type} [DecidableEq κ]
    {d : List (κ × β)} {k : κ} (h : d.any (fun kv => kv.1 = k) = false) :
    alook d k = none := by
  induction d with
  | nil => rfl
  | cons kv rest ih =>
      simp only [List.any_cons, Bool.or_eq_false_iff] at h
      rw [alook, if_neg (by simpa using h.1)]
      exact ih h.2

lemma alook_map_replace {κ β : Type} [DecidableEq κ]
    {d : List (κ × β)} {k : κ} (v : β) (h : d.any (fun kv => kv.1 = k) = true) :
    alook (d.map (fun kv => if kv.1 = k then (k, v) else kv)) k = some v := by
  induction d with
  | nil => simp at h
  | cons kv rest ih =>
      by_cases hk : kv.1 = k
      · simp [alook, hk]
      · simp only [List.any_cons, Bool.or_eq_true_iff] at h
        rcases h with h | h
        · simp [hk] at h
        · simp only [List.map_cons, if_neg hk]
          rw [alook, if_neg hk]
          exact ih h

lemma alook_dictInsert {κ β : Type} [DecidableEq κ]
    (d : List (κ × β)) (k : κ) (v : β) :
    alook (dictInsert d k v) k = some v := by
  unfold dictInsert
  by_cases h : d.any (fun kv => kv.1 = k) = true
  · rw [if_pos h]
    exact alook_map_replace v h
  · rw [if_neg h]
    rw [alook_append_none _ (alook_eq_none_of_any_false (Bool.eq_false_iff.mpr h))]
    simp [alook]

lemma alook_recordFeedbackAt (fb : List (Option Nat × List String))
    (bt : Option Nat) (m : String) :
    (alook (recordFeedbackAt fb bt m) bt).getD [] =
      recordFeedback ((alook fb bt).getD []) m := by
  unfold recordFeedbackAt recordFeedback
  cases h : alook fb bt with
  | none =>
      rw [alook_append_none _ h]
      simp [alook]
  | some cur =>
      by_cases hm : m ∈ cur
      · simp [h, hm]
      · simp [h, hm, alook_dictInsert]

lemma foldl_recordFeedbackAt (bt : Option Nat) (msgs : List String) :
    ∀ fb : List (Option Nat × List String),
      (alook (msgs.foldl (fun f m => recordFeedbackAt f bt m) fb) bt).getD [] =
        msgs.foldl recordFeedback ((alook fb bt).getD []) := by
  induction msgs with
  | nil => intro fb; rfl
  | cons m rest ih =>
      intro fb
      simp only [List.foldl_cons]
      rw [ih, alook_recordFeedbackAt]

lemma foldl_recordFeedback_eq (msgs : List String) :
    ∀ (acc seen : List String), (∀ x, x ∈ acc ↔ x ∈ seen) →
      msgs.foldl recordFeedback acc = acc ++ firstDedupAux seen msgs := by
  induction msgs with
  | nil => intro acc seen _; simp [firstDedupAux]
  | cons m rest ih =>
      intro acc seen hiff
      simp only [List.foldl_cons, firstDedupAux]
      by_cases hm : m ∈ seen
      · rw [if_pos hm, recordFeedback, if_pos ((hiff m).mpr hm)]
        exact ih acc seen hiff
      · rw [if_neg hm, recordFeedback, if_neg (fun hc => hm ((hiff m).mp hc))]
        rw [ih (acc ++ [m]) (m :: seen) (by intro x; simp [hiff x, or_comm])]
        simp

lemma mem_firstDedupAux (x : String) :
    ∀ (l seen : List String), x ∈ firstDedupAux seen l ↔ x ∈ l ∧ x ∉ seen := by
  intro l
  induction l with
  | nil => intro seen; simp [firstDedupAux]
  | cons y rest ih =>
      intro seen
      rw [firstDedupAux]
      by_cases hy : y ∈ seen
      · rw [if_pos hy, ih]
        constructor
        · rintro ⟨hl, hs⟩; exact ⟨List.mem_cons_of_mem _ hl, hs⟩
        · rintro ⟨hl, hs⟩
          rcases List.mem_cons.mp hl with rfl | hl
          · exact absurd hy hs
          · exact ⟨hl, hs⟩
      · rw [if_neg hy]
        simp only [List.mem_cons, ih, List.mem_cons, not_or]
        constructor
        · rintro (rfl | ⟨hl, hne, hs⟩)
          · exact ⟨Or.inl rfl, hy⟩
          · exact ⟨Or.inr hl, hs⟩
        · rintro ⟨rfl | hl, hs⟩
          · exact Or.inl rfl
          · by_cases hxy : x = y
            · exact Or.inl hxy
            · exact Or.inr ⟨hl, hxy, hs⟩

lemma nodup_firstDedupAux :
    ∀ (l seen : List String), (firstDedupAux seen l).Nodup := by
  intro l
  induction l with
  | nil => intro seen; simp [firstDedupAux]
  | cons y rest ih =>
      intro seen
      rw [firstDedupAux]
      by_cases hy : y ∈ seen
      · rw [if_pos hy]; exact ih seen
      · rw [if_neg hy]
        refine List.nodup_cons.mpr ⟨fun hc => ?_, ih (y :: seen)⟩
        exact ((mem_firstDedupAux y rest (y :: seen)).mp hc).2 (List.mem_cons_self y seen)

example (bt : Option Nat) (msgs : List String) :
    (alook (msgs.foldl (fun f m => recordFeedbackAt f bt m) []) bt).getD [] =
      firstDedup msgs := by
  rw [foldl_recordFeedbackAt]
  simpa [firstDedup, alook] using foldl_recordFeedback_eq msgs [] [] (by simp)

lemma scanBack_spec (ps : Preds) (t : String) :
    ∀ (L : List TraceEntry) (p : Nat), scanBack ps t L = some p →
      ∃ L1 e L2, L = L1 ++ e :: L2 ∧ e.mod = p ∧ (ps e.mod).signature = t ∧
        ∀ e2 ∈ L1, (ps e2.mod).signature ≠ t := by
  intro L
  induction L with
  | nil => intro p h; simp [scanBack] at h
  | cons e rest ih =>
      intro p h
      rw [scanBack] at h
      by_cases he : (ps e.mod).signature = t
      · rw [if_pos he] at h
        obtain rfl := Option.some.inj h
        exact ⟨[], e, rest, rfl, rfl, he, by simp⟩
      · rw [if_neg he] at h
        obtain ⟨L1, e1, L2, hL, hm, hs, hall⟩ := ih p h
        refine ⟨e :: L1, e1, L2, by rw [hL, List.cons_append], hm, hs, ?_⟩
        intro e2 he2
        rcases List.mem_cons.mp he2 with rfl | he2
        · exact he
        · exact hall e2 he2

lemma scanBack_isSome (ps : Preds) (t : String) :
    ∀ L : List TraceEntry, (∃ e ∈ L, (ps e.mod).signature = t) →
      (scanBack ps t L).isSome := by
  intro L
  induction L with
  | nil => rintro ⟨e, he, _⟩; simp at he
  | cons e rest ih =>
      rintro ⟨e1, he1, hs⟩
      rw [scanBack]
      by_cases he : (ps e.mod).signature = t
      · simp [he]
      · rw [if_neg he]
        rcases List.mem_cons.mp he1 with rfl | he1
        · exact absurd hs he
        · exact ih ⟨e1, he1, hs⟩

-- claim C6 draft
example (ps : Preds) (tr : List TraceEntry) (h : tr ≠ []) (t : String) (p : Nat) :
    resolveBacktrack ps none none tr = some ((tr.getLast h).mod) ∧
    (resolveBacktrack ps none (some t) tr = some p →
      ∃ pre e suf, tr = pre ++ e :: suf ∧ e.mod = p ∧
        (ps e.mod).signature = t ∧ ∀ e2 ∈ suf, (ps e2.mod).signature ≠ t) ∧
    ((∃ e ∈ tr, (ps e.mod).signature = t) →
      (resolveBacktrack ps none (some t) tr).isSome) ∧
    (resolveBacktrack c6ExPreds none none c6ExTrace = some 0 ∧
     resolveBacktrack c6ExPreds none (some "sigB") c6ExTrace = some 1) := by
  refine ⟨?_, ?_, ?_, by decide⟩
  · rw [resolveBacktrack, List.getLast?_eq_getLast_of_ne_nil h, Option.map_some']
  · intro hres
    rw [resolveBacktrack] at hres
    cases hs : scanBack ps t tr.reverse with
    | none => rw [hs] at hres; exact absurd hres (by simp)
    | some q =>
        rw [hs] at hres
        obtain rfl := Option.some.inj hres
        obtain ⟨L1, e, L2, hL, hm, hsig, hall⟩ := scanBack_spec ps t tr.reverse q hs
        refine ⟨L2.reverse, e, L1.reverse, ?_, hm, hsig, ?_⟩
        · have : tr.reverse.reverse = (L1 ++ e :: L2).reverse := by rw [hL]
          rw [List.reverse_reverse] at this
          rw [this, List.reverse_append, List.reverse_cons, List.append_assoc,
            List.singleton_append]
        · intro e2 he2
          exact hall e2 (List.mem_reverse.mp he2)
  · intro ⟨e, he, hs⟩
    rw [resolveBacktrack]
    cases hsc : scanBack ps t tr.reverse with
    | none =>
        have := scanBack_isSome ps t tr.reverse ⟨e, List.mem_reverse.mpr he, hs⟩
        rw [hsc] at this
        simp at this
    | some q => simp

lemma pyIndex_eq_none (x : String) :
    ∀ l : List String, pyIndex x l = none ↔ x ∉ l := by
  intro l
  induction l with
  | nil => simp [pyIndex]
  | cons y rest ih =>
      rw [pyIndex]
      by_cases hy : y = x
      · simp [hy]
      · rw [if_neg hy]
        cases h : pyIndex x rest with
        | none => simp [h, ih.mp h, Ne.symm hy]
        | some n =>
            simp only [Option.map_some', List.mem_cons]
            constructor
            · intro hc; exact absurd hc (by simp)
            · intro hc
              exfalso
              exact hc (Or.inr (by
                by_contra hximp
                rw [← ih] at hximp
                simp [hximp] at h))

lemma mem_pyInsert (y x : String) :
    ∀ (l : List String) (n : Nat), y ∈ l → y ∈ pyInsert n x l := by
  intro l
  induction l with
  | nil => intro n h; simp at h
  | cons z rest ih =>
      intro n h
      cases n with
      | zero => rw [pyInsert]; exact List.mem_cons_of_mem _ h
      | succ m =>
          rw [pyInsert]
          rcases List.mem_cons.mp h with rfl | h
          · exact List.mem_cons_self _ _
          · exact List.mem_cons_of_mem _ (ih m h)

lemma mem_extendKeys (x : String) (names : List String) (pos : Nat)
    (old : List String) (h : x ∈ old) : x ∈ extendKeys names pos old := by
  unfold extendKeys
  generalize names.reverse = l
  induction l generalizing old with
  | nil => exact h
  | cons k rest ih => exact ih (pyInsert pos k old) (mem_pyInsert x k old pos h)

lemma mem_dictComp_keys (k : String) (value : String → String) :
    ∀ (keys : List String) (acc : List (String × String)),
      k ∈ (keys.foldl
        (fun acc k2 =>
          if acc.any (fun kv => kv.1 = k2) then acc else acc ++ [(k2, value k2)])
        acc).map (fun kv => kv.1) ↔
      k ∈ acc.map (fun kv => kv.1) ∨ k ∈ keys := by
  intro keys
  induction keys with
  | nil => intro acc; simp
  | cons k0 rest ih =>
      intro acc
      rw [List.foldl_cons]
      by_cases h0 : acc.any (fun kv => kv.1 = k0) = true
      · rw [if_pos h0, ih]
        simp only [List.mem_cons]
        constructor
        · rintro (h | h)
          · exact Or.inl h
          · exact Or.inr (Or.inr h)
        · rintro (h | rfl | h)
          · exact Or.inl h
          · left
            simp only [List.any_eq_true] at h0
            obtain ⟨kv, hkv, he⟩ := h0
            simp only [decide_eq_true_eq] at he
            exact he ▸ List.mem_map_of_mem _ hkv
          · exact Or.inr h
      · rw [if_neg h0, ih]
        simp [or_assoc, or_comm (a := k = k0)]

lemma hasQuestion_dictComp (keys : List String) (value : String → String)
    (h : "question" ∈ keys) :
    hasQuestion ⟨"", dictComp keys value⟩ := by
  show "question" ∈ (dictComp keys value).map (fun kv => kv.1)
  unfold dictComp
  rw [mem_dictComp_keys]
  exact Or.inr h

lemma extendSig_none (t : Template) (nf : List (String × String))
    (h : ¬ hasQuestion t) : extendSig t nf = none := by
  unfold extendSig
  rw [(pyIndex_eq_none _ _).mpr h]

lemma extendSig_hasQuestion (t : Template) (nf : List (String × String))
    (h : hasQuestion t) :
    ∃ t2, extendSig t nf = some t2 ∧ hasQuestion t2 := by
  unfold extendSig
  cases hidx : pyIndex "question" (t.kwargs.map (fun kv => kv.1)) with
  | none => exact absurd ((pyIndex_eq_none _ _).mp hidx) (not_not.mpr h)
  | some idx =>
      refine ⟨_, rfl, ?_⟩
      show "question" ∈ _
      have hk : "question" ∈ extendKeys (nf.map (fun kv => kv.1)) (idx + 1)
          (t.kwargs.map (fun kv => kv.1)) := mem_extendKeys _ _ _ _ h
      unfold dictComp
      rw [mem_dictComp_keys]
      exact Or.inr hk

lemma pyIndex_append_cons (x : String) (ka : List String) :
    ∀ kb : List String, x ∉ kb →
      pyIndex x (kb ++ x :: ka) = some kb.length := by
  intro kb
  induction kb with
  | nil => intro _; simp [pyIndex]
  | cons y rest ih =>
      intro h
      have hyx : ¬ (y = x) := fun hc => h (List.mem_cons.mpr (Or.inl hc.symm))
      rw [List.cons_append, pyIndex, if_neg hyx,
        ih (fun hc => h (List.mem_cons_of_mem _ hc))]
      rfl

lemma pyInsert_zero (x : String) (l : List String) :
    pyInsert 0 x l = x :: l := by
  cases l <;> rfl

lemma pyInsert_append_cons (x y : String) (l2 : List String) :
    ∀ l1 : List String, pyInsert (l1.length + 1) x (l1 ++ y :: l2) =
      l1 ++ y :: x :: l2 := by
  intro l1
  induction l1 with
  | nil => simp [pyInsert, pyInsert_zero]
  | cons z rest ih => simpa [pyInsert] using ih

lemma dictComp_go_nodup (value : String → String) :
    ∀ (keys : List String) (acc : List (String × String)), keys.Nodup →
      (∀ k ∈ keys, k ∉ acc.map (fun kv => kv.1)) →
      keys.foldl
        (fun acc k2 =>
          if acc.any (fun kv => kv.1 = k2) then acc else acc ++ [(k2, value k2)])
        acc = acc ++ keys.map (fun k => (k, value k)) := by
  intro keys
  induction keys with
  | nil => intro acc _ _; simp
  | cons k0 rest ih =>
      intro acc hnd hdisj
      rw [List.foldl_cons]
      have hany : acc.any (fun kv => kv.1 = k0) = false := by
        rw [List.any_eq_false]
        intro kv hkv
        simp only [decide_eq_true_eq]
        intro he
        exact hdisj k0 (List.mem_cons_self _ _) (he ▸ List.mem_map_of_mem _ hkv)
      rw [if_neg (by simp [hany]), ih (acc ++ [(k0, value k0)])
        (List.nodup_cons.mp hnd).2 ?_]
      · simp
      · intro k hk
        simp only [List.map_append, List.mem_append, List.map_cons, List.map_nil,
          List.mem_singleton, not_or]
        exact ⟨hdisj k (List.mem_cons_of_mem _ hk),
          fun he => (List.nodup_cons.mp hnd).1 (he ▸ hk)⟩

lemma dictComp_nodup (keys : List String) (value : String → String)
    (h : keys.Nodup) : dictComp keys value = keys.map (fun k => (k, value k)) := by
  unfold dictComp
  rw [dictComp_go_nodup value keys [] h (by simp)]
  simp

lemma alook_eq_some_of_mem_nodup {β : Type} :
    ∀ (l : List (String × β)), (l.map (fun kv => kv.1)).Nodup →
      ∀ kv ∈ l, alook l kv.1 = some kv.2 := by
  intro l
  induction l with
  | nil => intro _ kv h; simp at h
  | cons kv0 rest ih =>
      intro hnd kv hm
      rw [List.map_cons, List.nodup_cons] at hnd
      rcases List.mem_cons.mp hm with rfl | hm
      · rw [alook, if_pos rfl]
      · rw [alook, if_neg, ih hnd.2 kv hm]
        intro he
        exact hnd.1 (he ▸ List.mem_map_of_mem _ hm)

lemma keys_map_value {β : Type} (P : List (String × β)) (v : String → β)
    (hv : ∀ kv ∈ P, v kv.1 = kv.2) :
    (P.map (fun kv => kv.1)).map (fun k => (k, v k)) = P := by
  rw [List.map_map]
  have : ∀ kv ∈ P, ((fun k => (k, v k)) ∘ fun kv => kv.1) kv = id kv := by
    intro kv hkv
    simp [hv kv hkv]
  rw [List.map_congr_left this, List.map_id]

lemma extendSig_question_anchor (B A : List (String × String)) (qv inst : String)
    (hnd : ((B ++ ("question", qv) :: A).map (fun kv => kv.1)).Nodup)
    (hf : "_assert_feedback" ∉ (B ++ ("question", qv) :: A).map (fun kv => kv.1))
    (ht : "_assert_traces" ∉ (B ++ ("question", qv) :: A).map (fun kv => kv.1)) :
    extendSig ⟨inst, B ++ ("question", qv) :: A⟩
        [("_assert_feedback", feedbackFieldDesc), ("_assert_traces", tracesFieldDesc)] =
      some ⟨inst, B ++ ("question", qv) :: ("_assert_feedback", feedbackFieldDesc) ::
        ("_assert_traces", tracesFieldDesc) :: A⟩ := by
  have hmap : (B ++ ("question", qv) :: A).map (fun kv => kv.1) =
      B.map (fun kv => kv.1) ++ "question" :: A.map (fun kv => kv.1) := by
    simp
  rw [hmap] at hnd hf ht
  simp only [List.mem_append, List.mem_cons, not_or] at hf ht
  obtain ⟨hfB, hfq, hfA⟩ := hf
  obtain ⟨htB, htq, htA⟩ := ht
  rw [List.nodup_append] at hnd
  obtain ⟨hndB, hndQA, hdisj⟩ := hnd
  rw [List.nodup_cons] at hndQA
  obtain ⟨hqA, hndA⟩ := hndQA
  have hqB : "question" ∉ B.map (fun kv => kv.1) := by
    intro hc
    exact hdisj hc (List.mem_cons_self _ _)
  have hft : ¬ (("_assert_feedback" : String) = "_assert_traces") := by decide
  have htf : ¬ (("_assert_traces" : String) = "_assert_feedback") := by decide
  have hfqs : ¬ (("_assert_feedback" : String) = "question") := hfq
  have htqs : ¬ (("_assert_traces" : String) = "question") := htq
  -- the extended key list
  have hkeys : extendKeys
      (([("_assert_feedback", feedbackFieldDesc),
         ("_assert_traces", tracesFieldDesc)]).map (fun kv => kv.1))
      ((B.map (fun kv => kv.1)).length + 1)
      (B.map (fun kv => kv.1) ++ "question" :: A.map (fun kv => kv.1)) =
      B.map (fun kv => kv.1) ++ "question" :: "_assert_feedback" ::
        "_assert_traces" :: A.map (fun kv => kv.1) := by
    show pyInsert _ "_assert_feedback" (pyInsert _ "_assert_traces" _) = _
    rw [pyInsert_append_cons, pyInsert_append_cons]
  -- the extended key list is nodup
  have hknd : (B.map (fun kv => kv.1) ++ "question" :: "_assert_feedback" ::
      "_assert_traces" :: A.map (fun kv => kv.1)).Nodup := by
    rw [List.nodup_append]
    refine ⟨hndB, ?_, ?_⟩
    · rw [List.nodup_cons, List.nodup_cons, List.nodup_cons]
      refine ⟨?_, ?_, htA, hndA⟩
      · intro hmem
        rcases List.mem_cons.mp hmem with hc | hmem
        · exact hfqs hc.symm
        rcases List.mem_cons.mp hmem with hc | hmem
        · exact htqs hc.symm
        · exact hqA hmem
      · intro hmem
        rcases List.mem_cons.mp hmem with hc | hmem
        · exact hft hc
        · exact hfA hmem
    · intro x hx hmem
      rcases List.mem_cons.mp hmem with hc | hmem
      · exact hqB (by rw [← hc]; exact hx)
      rcases List.mem_cons.mp hmem with hc | hmem
      · exact hfB (by rw [← hc]; exact hx)
      rcases List.mem_cons.mp hmem with hc | hmem
      · exact htB (by rw [← hc]; exact hx)
      · exact hdisj hx (List.mem_cons_of_mem _ hmem)
  -- the value function restores each pair
  have hval : ∀ kv ∈ B ++ ("question", qv) :: ("_assert_feedback", feedbackFieldDesc) ::
      ("_assert_traces", tracesFieldDesc) :: A,
      extendValue [("_assert_feedback", feedbackFieldDesc),
        ("_assert_traces", tracesFieldDesc)] (B ++ ("question", qv) :: A) kv.1 = kv.2 := by
    intro kv hkv
    have horig : ∀ kv2 ∈ B ++ ("question", qv) :: A,
        alook (B ++ ("question", qv) :: A) kv2.1 = some kv2.2 := by
      intro kv2 h2
      refine alook_eq_some_of_mem_nodup _ ?_ kv2 h2
      rw [hmap, List.nodup_append]
      exact ⟨hndB, List.nodup_cons.mpr ⟨hqA, hndA⟩, hdisj⟩
    rcases List.mem_append.mp hkv with hB | hrest
    · have h1 : kv.1 ∈ B.map (fun kv => kv.1) := List.mem_map_of_mem _ hB
      have hne1 : ¬ (("_assert_feedback" : String) = kv.1) := by
        intro hc
        exact hfB (by rw [hc]; exact h1)
      have hne2 : ¬ (("_assert_traces" : String) = kv.1) := by
        intro hc
        exact htB (by rw [hc]; exact h1)
      rw [extendValue, alook, if_neg hne1, alook, if_neg hne2]
      show (alook _ kv.1).getD "" = kv.2
      rw [horig kv (List.mem_append_left _ hB)]
      rfl
    · rcases List.mem_cons.mp hrest with rfl | hrest
      · rw [extendValue, alook, if_neg hfqs, alook, if_neg htqs]
        show (alook _ "question").getD "" = qv
        rw [horig ("question", qv) (List.mem_append_right _ (List.mem_cons_self _ _))]
        rfl
      · rcases List.mem_cons.mp hrest with rfl | hrest
        · rw [extendValue, alook, if_pos rfl]
        · rcases List.mem_cons.mp hrest with rfl | hA
          · rw [extendValue, alook, if_neg hft, alook, if_pos rfl]
          · have h1 : kv.1 ∈ A.map (fun kv => kv.1) := List.mem_map_of_mem _ hA
            have hne1 : ¬ (("_assert_feedback" : String) = kv.1) := by
              intro hc
              exact hfA (by rw [hc]; exact h1)
            have hne2 : ¬ (("_assert_traces" : String) = kv.1) := by
              intro hc
              exact htA (by rw [hc]; exact h1)
            rw [extendValue, alook, if_neg hne1, alook, if_neg hne2]
            show (alook _ kv.1).getD "" = kv.2
            rw [horig kv (List.mem_append_right _ (List.mem_cons_of_mem _ hA))]
            rfl
  -- assemble
  have htarget : (B ++ ("question", qv) :: ("_assert_feedback", feedbackFieldDesc) ::
      ("_assert_traces", tracesFieldDesc) :: A).map (fun kv => kv.1) =
      B.map (fun kv => kv.1) ++ "question" :: "_assert_feedback" ::
        "_assert_traces" :: A.map (fun kv => kv.1) := by
    simp
  rw [extendSig]
  simp only [hmap, pyIndex_append_cons _ _ _ hqB]
  rw [hkeys, dictComp_nodup _ _ hknd, ← htarget, keys_map_value _ _ hval]

lemma augPhase_ok (i : Nat) (st : LoopSt)
    (h : ∀ p, hasQuestion ((st.preds p).ext)) :
    ∃ st1, augPhase i st = .ok st1 ∧ st1.calls = st.calls ∧
      (∀ p, hasQuestion ((st1.preds p).ext)) := by
  unfold augPhase
  by_cases hi : 0 < i
  · simp only [if_pos hi]
    cases hbt : st.backtrackTo with
    | none => exact ⟨st, rfl, rfl, h⟩
    | some p =>
        obtain ⟨t2, he, hq2⟩ := extendSig_hasQuestion ((st.preds p).ext)
          [("_assert_feedback", feedbackFieldDesc),
           ("_assert_traces", tracesFieldDesc)] (h p)
        simp only [he]
        refine ⟨_, rfl, rfl, ?_⟩
        intro q
        show hasQuestion ((updatePred st.preds p _ q).ext)
        unfold updatePred
        by_cases hq : q = p
        · rw [if_pos hq]
          exact hq2
        · rw [if_neg hq]
          exact h q
  · simp only [if_neg hi]
    exact ⟨st, rfl, rfl, h⟩

lemma finish_calls {α : Type} (st : LoopSt) (res : Option α) :
    (finish st res).calls = st.calls := rfl

lemma finish_result {α : Type} (st : LoopSt) (res : Option α) :
    (finish st res).result = .ok res := rfl

lemma handlerGo_script {α : Type} (pipeline : Nat → Flags → RunOutcome α)
    (flags0 : Flags) (target : Option String) (N : Nat)
    (hfail : ∀ k, k < N →
      ∃ s m tr, pipeline k flags0 = .suggestErr s m tr ∧ tr ≠ []) :
    ∀ (c i : Nat) (st : LoopSt), i + c = N → st.calls = i →
      (∀ p, hasQuestion ((st.preds p).ext)) →
      (handlerGo pipeline flags0 target N (List.range' i (c + 1)) st).calls = N + 1 ∧
      (handlerGo pipeline flags0 target N (List.range' i (c + 1)) st).result =
        finalResult (pipeline N ⟨true, false⟩) := by
  intro c
  induction c with
  | zero =>
      intro i st hic hcalls hq
      have hNi : N = i := by omega
      subst hNi
      obtain ⟨st1, ha, hc1, hq1⟩ := augPhase_ok N st hq
      have hr : List.range' N 1 = [N] := rfl
      rw [hr]
      simp only [handlerGo, ha, if_pos rfl]
      rw [hc1, hcalls]
      cases hp : pipeline N ⟨true, false⟩ with
      | ok a => simp [hp, finalResult, finish_calls, finish_result]
      | suggestErr s m tr => simp [hp, finalResult]
      | assertErr s m => simp [hp, finalResult]
  | succ c ih =>
      intro i st hic hcalls hq
      have hiN : i < N := by omega
      obtain ⟨st1, ha, hc1, hq1⟩ := augPhase_ok i st hq
      obtain ⟨s, m, tr, hp, htr⟩ := hfail i hiN
      have hlast : tr.getLast? = some (tr.getLast htr) :=
        List.getLast?_eq_getLast_of_ne_nil htr
      have hr : List.range' i (c + 1 + 1) = i :: List.range' (i + 1) (c + 1) := rfl
      rw [hr]
      simp only [handlerGo, ha, if_neg (Nat.ne_of_lt hiN)]
      rw [hc1, hcalls]
      simp only [hp, hlast]
      exact ih (i + 1) _ (by omega) rfl hq1

lemma runHandler_script {α : Type} (pipeline : Nat → Flags → RunOutcome α)
    (flags0 : Flags) (target : Option String) (N : Nat) (preds0 : Preds)
    (hq : ∀ p, hasQuestion ((preds0 p).ext))
    (hfail : ∀ k, k < N →
      ∃ s m tr, pipeline k flags0 = .suggestErr s m tr ∧ tr ≠ []) :
    (runHandler pipeline flags0 target N preds0).calls = N + 1 ∧
    (runHandler pipeline flags0 target N preds0).result =
      finalResult (pipeline N ⟨true, false⟩) := by
  unfold runHandler
  rw [List.range_eq_range']
  exact handlerGo_script pipeline flags0 target N hfail N 0
    ⟨preds0, none, [], [], [], 0⟩ (by omega) rfl hq


/-- Claim C1 (code evidence): the cleanup invariant FAILS on the code. On a
run of the backtrack handler that augments predictor 0 and then terminates
normally, the predictor's forward is restored but its input schema still
contains both injected fields, because the revert pops a field literally
named "feedback" instead of "_assert_feedback" / "_assert_traces"; and on a
run whose augmented attempt raises an unexpected (hard) error, the revert
block is skipped entirely (no try/finally), so even the forward stays
wrapped. -/
theorem c1_revert_code_bug :
    (c1Out.result = .ok (some "done") ∧
     (c1Out.preds 0).fwd = .orig 0 ∧
     (c1Out.preds 0).ext ≠ c1Ext0 ∧
     "_assert_feedback" ∈ (c1Out.preds 0).ext.kwargs.map (fun kv => kv.1) ∧
     "_assert_traces" ∈ (c1Out.preds 0).ext.kwargs.map (fun kv => kv.1)) ∧
    (c1Out2.result = .error (.assertE "aid0" "hardfail") ∧
     (c1Out2.preds 0).fwd ≠ .orig 0 ∧
     (c1Out2.preds 0).ext ≠ c1Ext0) := by decide

/-- Claim C2 (code evidence): constraint deduplication FAILS on the code.
The first construction with key (true, "m", None) returns an object with id
"uuid-0" and registers it; a second construction with the identical key
returns a fresh object whose id attribute was never assigned (the statement
self = Constraint._registry[key] only rebinds the local name), so the two
constructions do not share an id. A construction with a different message
does get a fresh distinct id. -/
theorem c2_dedup_code_bug :
    (constraintInit reg0 true "m" none).1.id = some "uuid-0" ∧
    (constraintInit (constraintInit reg0 true "m" none).2.2 true "m" none).1.id = none ∧
    (constraintInit (constraintInit reg0 true "m" none).2.2 true "m" none).1.id ≠
      (constraintInit reg0 true "m" none).1.id ∧
    (constraintInit (constraintInit reg0 true "m" none).2.2 true "m2" none).1.id =
      some "uuid-1" := by decide

/-- Claim C3: for maxAttempts = N and any pipeline whose soft constraint
fails on every invocation made without the soft-bypass flag (each failure
carrying a nonempty trace) over predictors whose signatures contain a
question field, the handler invokes the pipeline exactly N + 1 times and
returns the value the pipeline produces on its final invocation, which runs
with the soft-bypass flag forced on. -/
theorem c3_bounded_retry {α : Type} (N : Nat) (pipeline : Nat → Flags → RunOutcome α)
    (flags0 : Flags) (target : Option String) (preds0 : Preds)
    (sid smsg : Nat → String) (tr : Nat → List TraceEntry) (v : Nat → α)
    (hflags : flags0.bypassSuggest = false)
    (hpipe : ∀ k fl, pipeline k fl =
      if fl.bypassSuggest then .ok (v k) else .suggestErr (sid k) (smsg k) (tr k))
    (htr : ∀ k, tr k ≠ [])
    (hq : ∀ p, hasQuestion ((preds0 p).ext)) :
    (runHandler pipeline flags0 target N preds0).calls = N + 1 ∧
    (runHandler pipeline flags0 target N preds0).result = .ok (some (v N)) := by
  have hfail : ∀ k, k < N →
      ∃ s m t2, pipeline k flags0 = .suggestErr s m t2 ∧ t2 ≠ [] := by
    intro k _
    refine ⟨sid k, smsg k, tr k, ?_, htr k⟩
    rw [hpipe, hflags]
    rfl
  obtain ⟨hc, hr⟩ := runHandler_script pipeline flags0 target N preds0 hq hfail
  refine ⟨hc, ?_⟩
  rw [hr, hpipe N ⟨true, false⟩]
  rfl

theorem c3_bounded_retry_witness :
    (Flags.mk false false).bypassSuggest = false ∧
    (∀ p, hasQuestion ((c3Preds p).ext)) ∧
    ((runHandler c3Pipe ⟨false, false⟩ none 2 c3Preds).calls = 2 + 1 ∧
     (runHandler c3Pipe ⟨false, false⟩ none 2 c3Preds).result = .ok (some "final")) :=
  ⟨rfl, fun _ => by simp [c3Preds],
    c3_bounded_retry 2 c3Pipe ⟨false, false⟩ none c3Preds
      (fun _ => "s0") (fun _ => "bad") (fun _ => [⟨0, "ip", [("answer", "a")]⟩])
      (fun _ => "final") rfl (fun _ _ => rfl)
      (fun _ => by simp) (fun _ => by simp [c3Preds])⟩

/-- Claim C4 counterexample: a raised violation error does NOT carry an
immutable copy of the trace. The error stores the reference
state=dsp.settings.trace; appending an entry to the trace after the raise
changes the trace observed through the error's state. -/
theorem c4_live_trace_counterexample :
    suggestCall false "c1" false "m" 0 = .error ⟨"c1", "m", 0⟩ ∧
    errState c4H0 ⟨"c1", "m", 0⟩ = [⟨0, "ip", []⟩] ∧
    errState (heapAppend c4H0 0 c4E2) ⟨"c1", "m", 0⟩ =
      [⟨0, "ip", []⟩, ⟨1, "ip2", []⟩] ∧
    errState (heapAppend c4H0 0 c4E2) ⟨"c1", "m", 0⟩ ≠
      errState c4H0 ⟨"c1", "m", 0⟩ := by decide

/-- Claim C4 amended: every raised violation error (hard or soft) carries a
live reference to the trace list; an entry appended to that list after the
raise is visible through the error's state (the observed state becomes the
old state plus the new entry). -/
theorem c4_amended_live_reference (h : Heap) (r : Nat) (cid m : String)
    (e : TraceEntry) :
    suggestCall false cid false m r = .error ⟨cid, m, r⟩ ∧
    assertCall false cid false m r = .error ⟨cid, m, r⟩ ∧
    errState (heapAppend h r e) ⟨cid, m, r⟩ = errState h ⟨cid, m, r⟩ ++ [e] := by
  refine ⟨rfl, rfl, ?_⟩
  show heapAppend h r e r = h r ++ [e]
  unfold heapAppend
  rw [if_pos rfl]

/-- Claim C5 (code evidence): the fail-fast policy FAILS on the code. With
a configured target whose signature ("sigT") matches no trace entry, the
resolution yields no step, yet the handler logs and silently continues the
retry loop: the run completes with 2 pipeline invocations and returns the
forced-completion value instead of re-raising the violation. -/
theorem c5_unresolved_target_code_bug :
    c5Out.result = .ok (some "v") ∧ c5Out.calls = 2 ∧
    resolveBacktrack c5Preds none (some "sigT") [⟨0, "ip", []⟩] = none := by decide

/-- Claim C6: resolution of the offending step. With no configured target
the most recent trace entry's module is resolved; with a configured target
the trace is scanned from the most recent entry backward and the first
module whose signature matches is resolved (witnessed by the decomposition
with no later matching entry, and resolution succeeds whenever some entry
matches). On the trace [stepA, stepB, stepA]: no target resolves stepA
(module 0), target sigB resolves stepB (module 1). -/
theorem c6_target_resolution (ps : Preds) (tr : List TraceEntry) (h : tr ≠ [])
    (t : String) (p : Nat) :
    resolveBacktrack ps none none tr = some ((tr.getLast h).mod) ∧
    (resolveBacktrack ps none (some t) tr = some p →
      ∃ pre e suf, tr = pre ++ e :: suf ∧ e.mod = p ∧
        (ps e.mod).signature = t ∧ ∀ e2 ∈ suf, (ps e2.mod).signature ≠ t) ∧
    ((∃ e ∈ tr, (ps e.mod).signature = t) →
      (resolveBacktrack ps none (some t) tr).isSome) ∧
    (resolveBacktrack c6ExPreds none none c6ExTrace = some 0 ∧
     resolveBacktrack c6ExPreds none (some "sigB") c6ExTrace = some 1) := by
  refine ⟨?_, ?_, ?_, by decide⟩
  · rw [resolveBacktrack, List.getLast?_eq_getLast_of_ne_nil h, Option.map_some']
  · intro hres
    rw [resolveBacktrack] at hres
    cases hs : scanBack ps t tr.reverse with
    | none => rw [hs] at hres; exact absurd hres (by simp)
    | some q =>
        rw [hs] at hres
        obtain rfl := Option.some.inj hres
        obtain ⟨L1, e, L2, hL, hm, hsig, hall⟩ := scanBack_spec ps t tr.reverse q hs
        refine ⟨L2.reverse, e, L1.reverse, ?_, hm, hsig, ?_⟩
        · have h2 : tr.reverse.reverse = (L1 ++ e :: L2).reverse := by rw [hL]
          rw [List.reverse_reverse] at h2
          rw [h2, List.reverse_append, List.reverse_cons, List.append_assoc,
            List.singleton_append]
        · intro e2 he2
          exact hall e2 (List.mem_reverse.mp he2)
  · intro ⟨e, he, hs⟩
    rw [resolveBacktrack]
    cases hsc : scanBack ps t tr.reverse with
    | none =>
        have h2 := scanBack_isSome ps t tr.reverse ⟨e, List.mem_reverse.mpr he, hs⟩
        rw [hsc] at h2
        simp at h2
    | some q => simp

theorem c6_target_resolution_witness :
    (c6ExTrace ≠ []) ∧
    resolveBacktrack c6ExPreds none none c6ExTrace =
      some ((c6ExTrace.getLast (by decide)).mod) :=
  ⟨by decide, (c6_target_resolution c6ExPreds c6ExTrace (by decide) "sigB" 1).1⟩

/-- Claim C7: for any step key and any sequence of recorded soft-failure
messages, the per-step store equals the first-occurrence deduplication of
the sequence (so each distinct message appears exactly once, in
first-insertion order), recording an already-present message leaves the
list unchanged, and the rendered feedback text joins the deduplicated
messages with newlines. -/
theorem c7_feedback_dedup (bt : Option Nat) (msgs : List String) :
    (alook (msgs.foldl (fun f m => recordFeedbackAt f bt m) []) bt).getD [] =
      firstDedup msgs ∧
    ((alook (msgs.foldl (fun f m => recordFeedbackAt f bt m) []) bt).getD []).Nodup ∧
    (∀ x, x ∈ (alook (msgs.foldl (fun f m => recordFeedbackAt f bt m) []) bt).getD [] ↔
      x ∈ msgs) ∧
    (∀ s x, x ∈ s → recordFeedback s x = s) ∧
    buildErrorMsg
        ((alook (msgs.foldl (fun f m => recordFeedbackAt f bt m) []) bt).getD []) =
      String.intercalate "\n" (firstDedup msgs) := by
  have hmain : (alook (msgs.foldl (fun f m => recordFeedbackAt f bt m) []) bt).getD [] =
      firstDedup msgs := by
    rw [foldl_recordFeedbackAt]
    simpa [firstDedup, alook] using foldl_recordFeedback_eq msgs [] [] (by simp)
  refine ⟨hmain, ?_, ?_, ?_, ?_⟩
  · rw [hmain]
    exact nodup_firstDedupAux msgs []
  · intro x
    rw [hmain]
    unfold firstDedup
    rw [mem_firstDedupAux]
    simp
  · intro s x hx
    rw [recordFeedback, if_pos hx]
  · rw [hmain]
    rfl

theorem c7_feedback_dedup_witness :
    ("a" ∈ (["a"] : List String)) ∧ recordFeedback ["a"] "a" = ["a"] :=
  ⟨by decide, (c7_feedback_dedup (some 0) ["a", "b", "a"]).2.2.2.1 ["a"] "a" (by decide)⟩

/-- Claim C8: evaluating a hard constraint with a false boolean result
returns true without raising when the hard-bypass flag is set, and raises a
DSPyAssertionError carrying the supplied message, the constraint's id and
the current trace when the flag is unset. -/
theorem c8_hard_bypass (h : Heap) (cid m : String) (r : Nat) :
    assertCall true cid false m r = .ok true ∧
    assertCall false cid false m r = .error ⟨cid, m, r⟩ ∧
    errState h ⟨cid, m, r⟩ = h r :=
  ⟨rfl, rfl, rfl⟩

/-- Claim C9: signature extension is anchored on a question field. If the
step's signature has no question field, extension fails (the ValueError
from the index lookup); if it has one (and the injected names are fresh),
the two injected fields are placed immediately after it, in the order
_assert_feedback then _assert_traces, with every other field's position and
value preserved; and a concrete handler run on a question-less predictor
stops with the extension error after a single pipeline invocation instead
of retrying. -/
theorem c9_question_anchor :
    (∀ (t : Template) (nf : List (String × String)),
      ¬ hasQuestion t → extendSig t nf = none) ∧
    (∀ (B A : List (String × String)) (qv inst : String),
      ((B ++ ("question", qv) :: A).map (fun kv => kv.1)).Nodup →
      "_assert_feedback" ∉ (B ++ ("question", qv) :: A).map (fun kv => kv.1) →
      "_assert_traces" ∉ (B ++ ("question", qv) :: A).map (fun kv => kv.1) →
      extendSig ⟨inst, B ++ ("question", qv) :: A⟩
          [("_assert_feedback", feedbackFieldDesc),
           ("_assert_traces", tracesFieldDesc)] =
        some ⟨inst, B ++ ("question", qv) :: ("_assert_feedback", feedbackFieldDesc) ::
          ("_assert_traces", tracesFieldDesc) :: A⟩) ∧
    (c9Out.result = .error .valueError ∧ c9Out.calls = 1) :=
  ⟨extendSig_none, extendSig_question_anchor, by decide⟩

theorem c9_question_anchor_witness :
    (((([("context", "cd")] : List (String × String)) ++ ("question", "qd") ::
        [("answer", "ad")]).map (fun kv => kv.1)).Nodup ∧
     "_assert_feedback" ∉ (([("context", "cd")] : List (String × String)) ++
        ("question", "qd") :: [("answer", "ad")]).map (fun kv => kv.1) ∧
     "_assert_traces" ∉ (([("context", "cd")] : List (String × String)) ++
        ("question", "qd") :: [("answer", "ad")]).map (fun kv => kv.1)) ∧
    extendSig ⟨"i", [("context", "cd")] ++ ("question", "qd") :: [("answer", "ad")]⟩
        [("_assert_feedback", feedbackFieldDesc), ("_assert_traces", tracesFieldDesc)] =
      some ⟨"i", [("context", "cd")] ++ ("question", "qd") ::
        ("_assert_feedback", feedbackFieldDesc) ::
        ("_assert_traces", tracesFieldDesc) :: [("answer", "ad")]⟩ :=
  ⟨⟨by decide, by decide, by decide⟩,
    c9_question_anchor.2.1 [("context", "cd")] [("answer", "ad")] "qd" "i"
      (by decide) (by decide) (by decide)⟩

/-- Claim C10: the forced-completion final attempt runs the pipeline with
bypass_suggest = true and bypass_assert = false, so a hard-constraint
failure during that attempt propagates as a hard violation even when the
ambient flags (including a globally enabled hard-bypass) said otherwise. -/
theorem c10_forced_attempt_flags {α : Type} (N : Nat)
    (pipeline : Nat → Flags → RunOutcome α) (flags0 : Flags)
    (target : Option String) (preds0 : Preds) (aid amsg : String) (w : α)
    (hfail : ∀ k, k < N →
      ∃ s m t2, pipeline k flags0 = .suggestErr s m t2 ∧ t2 ≠ [])
    (hfinal : ∀ fl, pipeline N fl =
      if fl.bypassAssert then .ok w else .assertErr aid amsg)
    (hq : ∀ p, hasQuestion ((preds0 p).ext)) :
    (runHandler pipeline flags0 target N preds0).result =
      .error (.assertE aid amsg) ∧
    (runHandler pipeline flags0 target N preds0).calls = N + 1 := by
  obtain ⟨hc, hr⟩ := runHandler_script pipeline flags0 target N preds0 hq hfail
  refine ⟨?_, hc⟩
  rw [hr, hfinal ⟨true, false⟩]
  rfl

theorem c10_forced_attempt_flags_witness :
    (∀ k, k < 1 →
      ∃ s m t2, c10Pipe k ⟨false, true⟩ = .suggestErr s m t2 ∧ t2 ≠ []) ∧
    ((runHandler c10Pipe ⟨false, true⟩ none 1 c10Preds).result =
      .error (.assertE "aid" "hard") ∧
     (runHandler c10Pipe ⟨false, true⟩ none 1 c10Preds).calls = 1 + 1) :=
  ⟨fun k hk => by
      obtain rfl : k = 0 := Nat.lt_one_iff.mp hk
      exact ⟨"s", "m", [⟨0, "ip", []⟩], rfl, by simp⟩,
    c10_forced_attempt_flags 1 c10Pipe ⟨false, true⟩ none c10Preds "aid" "hard" "x"
      (fun k hk => by
        obtain rfl : k = 0 := Nat.lt_one_iff.mp hk
        exact ⟨"s", "m", [⟨0, "ip", []⟩], rfl, by simp⟩)
      (fun _ => rfl) (fun _ => by simp [c10Preds])⟩

end DspyAssertions
